import Mathlib

/-!
Verification of the picserver image-to-display codec
(`app/jpg_to_waveshare73_bmp.py` and its callers) against its
natural-language specification.  Python functions are shallowly embedded:
pure pixel arithmetic becomes Lean functions on `ℕ`/`ℤ`/`ℚ`, the float
aspect-ratio arithmetic of `resize_with_mode` is modelled over `ℚ`, and
fallible code returns `Except`/`Option`.  Behaviour of the PIL library
calls that the source delegates to (`Image.quantize`, the BMP writer,
`ImageColor` parsing) is modelled from the spec, which fixes their
contracts precisely (nearest colour by squared Euclidean distance with
first-minimal-index tie-break, Floyd-Steinberg error diffusion, the
standard uncompressed Windows bitmap layout, name table + hex triplets).
-/

namespace PicServer

set_option maxRecDepth 100000

/-- An 8-bit RGB triple (r, g, b). -/
abbrev RGB := ℕ × ℕ × ℕ

/-- The fixed 7-colour palette `WAVESHARE_7C_PALETTE` of
`jpg_to_waveshare73_bmp.py` (lines 42-50): Black, White, Red, Yellow,
Blue, Green, Orange. -/
def WAVESHARE_7C_PALETTE : List RGB :=
  [(0, 0, 0), (255, 255, 255), (255, 0, 0), (255, 255, 0),
   (0, 0, 255), (0, 255, 0), (255, 165, 0)]

/-- The 256-entry palette table built by `build_palette_image`
(lines 52-61): the 7 colours followed by `256 - 7` zero-filled
placeholder entries. -/
def palette256 : List RGB :=
  WAVESHARE_7C_PALETTE ++ List.replicate 249 ((0, 0, 0) : RGB)

/-- The last 6 of the 7 real palette colours (everything after Black),
used to walk the classifier's scan across the palette table. -/
def palTail : List RGB :=
  [(255, 255, 255), (255, 0, 0), (255, 255, 0),
   (0, 0, 255), (0, 255, 0), (255, 165, 0)]

/-- Squared Euclidean distance between two RGB triples.  Modelled from
the spec: the nearest-colour classifier used by PIL's
`Image.quantize(palette=...)` compares squared Euclidean distance in
RGB space. -/
def dist2 (a b : RGB) : ℤ :=
  ((a.1 : ℤ) - (b.1 : ℤ)) ^ 2 + ((a.2.1 : ℤ) - (b.2.1 : ℤ)) ^ 2 +
    ((a.2.2 : ℤ) - (b.2.2 : ℤ)) ^ 2

/-- One left-to-right scan over the remaining palette entries keeping
the first index of minimal distance.  State is
`(next index, best index, best distance)`; a later entry replaces the
best only on a strictly smaller distance, so ties keep the first
(lowest) palette index, as the spec fixes for the classifier. -/
def scanMin (p : RGB) : ℕ × ℕ × ℤ → List RGB → ℕ × ℕ × ℤ
  | st, [] => st
  | (i, bi, bd), c :: cs =>
      if dist2 p c < bd then scanMin p (i + 1, i, dist2 p c) cs
      else scanMin p (i + 1, bi, bd) cs

/-- Index of the first palette entry at minimal squared distance from
`p` (0 on an empty palette). -/
def nearestIdx (pal : List RGB) (p : RGB) : ℕ :=
  match pal with
  | [] => 0
  | c :: cs => (scanMin p (1, 0, dist2 p c) cs).2.1

/-- Modelled from the spec: the per-pixel classifier realised by PIL's
`Image.quantize` against the 256-entry table of `build_palette_image` —
nearest entry by squared Euclidean distance, first minimal index wins. -/
def classify (p : RGB) : ℕ := nearestIdx palette256 p

/-- `quantize_to_7c` with `dither=False`: each pixel independently
mapped through the nearest-colour classifier. -/
def quantizeNoDither (px : List RGB) : List ℕ := px.map classify

/-- Working colour triple with signed fractional error channels. -/
abbrev QRGB := ℚ × ℚ × ℚ

/-- Inject an RGB triple into the error-diffusion working type. -/
def toQ (c : RGB) : QRGB := ((c.1 : ℚ), (c.2.1 : ℚ), (c.2.2 : ℚ))

/-- Componentwise sum of working colours. -/
def qAdd (a b : QRGB) : QRGB := (a.1 + b.1, a.2.1 + b.2.1, a.2.2 + b.2.2)

/-- Componentwise difference of working colours. -/
def qSub (a b : QRGB) : QRGB := (a.1 - b.1, a.2.1 - b.2.1, a.2.2 - b.2.2)

/-- Scale a working colour by a rational factor. -/
def qSmul (r : ℚ) (a : QRGB) : QRGB := (r * a.1, r * a.2.1, r * a.2.2)

/-- Clamp one error-adjusted channel back to an 8-bit value. -/
def clampCh (x : ℚ) : ℕ := (max 0 (min 255 ⌊x⌋)).toNat

/-- Clamp an error-adjusted working colour to an RGB triple. -/
def clampRGB (c : QRGB) : RGB := (clampCh c.1, clampCh c.2.1, clampCh c.2.2)

/-- Add a fraction of the quantization error to the neighbour at flat
index `j` of the working buffer. -/
def addErr (buf : List QRGB) (j : ℕ) (e : QRGB) : List QRGB :=
  buf.set j (qAdd (buf.getD j (0, 0, 0)) e)

/-- Modelled from the spec: one Floyd-Steinberg step at flat row-major
index `k` of a `w`-wide buffer with `total` pixels — clamp the
error-adjusted colour, classify it, and push 7/16, 3/16, 5/16, 1/16 of
the quantization error to the right, below-left, below and below-right
neighbours that exist. -/
def fsStep (w total k : ℕ) (buf : List QRGB) : ℕ × List QRGB :=
  let c := clampRGB (buf.getD k (0, 0, 0))
  let i := classify c
  let pc := palette256.getD i ((0, 0, 0) : RGB)
  let e := qSub (toQ c) (toQ pc)
  let b1 := if (k + 1) % w ≠ 0 ∧ k + 1 < total then
      addErr buf (k + 1) (qSmul (7 / 16) e) else buf
  let b2 := if k % w ≠ 0 ∧ k + w - 1 < total then
      addErr b1 (k + w - 1) (qSmul (3 / 16) e) else b1
  let b3 := if k + w < total then addErr b2 (k + w) (qSmul (5 / 16) e) else b2
  let b4 := if (k + 1) % w ≠ 0 ∧ k + w + 1 < total then
      addErr b3 (k + w + 1) (qSmul (1 / 16) e) else b3
  (i, b4)

/-- Run `n` remaining Floyd-Steinberg steps starting at flat index `k`,
emitting the chosen palette index of each pixel in row-major order. -/
def fsRun (w total : ℕ) : ℕ → ℕ → List QRGB → List ℕ
  | 0, _, _ => []
  | n + 1, k, buf =>
      let r := fsStep w total k buf
      r.1 :: fsRun w total n (k + 1) r.2

/-- `quantize_to_7c` with `dither=True`: Floyd-Steinberg error
diffusion over the whole `w × h` buffer in row-major order. -/
def quantizeDither (w h : ℕ) (px : List RGB) : List ℕ :=
  fsRun w (w * h) (w * h) 0 (px.map toQ)

/-- `quantize_to_7c` (lines 113-119): map an RGB buffer to palette
indices, with or without Floyd-Steinberg dithering, against the fixed
256-entry palette table. -/
def quantize_to_7c (w h : ℕ) (px : List RGB) (dither : Bool) : List ℕ :=
  if dither then quantizeDither w h px else quantizeNoDither px

/-- Expand an indexed buffer back to RGB by palette lookup (the
`convert("RGB")` of a `P`-mode image carrying `palette256`). -/
def expandRGB (idxs : List ℕ) : List RGB :=
  idxs.map (fun i => palette256.getD i ((0, 0, 0) : RGB))

/-- Python's built-in `round` on an exact value: round half to even. -/
def pyRound (x : ℚ) : ℤ :=
  if x - ⌊x⌋ < 1 / 2 then ⌊x⌋
  else if 1 / 2 < x - ⌊x⌋ then ⌊x⌋ + 1
  else if ⌊x⌋ % 2 = 0 then ⌊x⌋ else ⌊x⌋ + 1

/-- The string constant selecting contain/letterbox resizing. -/
def fitMode : String := "fit"

/-- The string constant selecting cover/crop resizing. -/
def fillMode : String := "fill"

/-- The `ValueError` message of `resize_with_mode` for a bad mode
(quotes around fit and fill elided). -/
def modeErrMsg : String := "mode must be fit or fill"

/-- The geometry computed by `resize_with_mode` (lines 63-101):
output dimensions, the scaled dimensions `new_w`/`new_h`, the paste
offsets (`fit`) or crop offsets (`fill`), and the background colour
used for the letterbox canvas. -/
structure Geom where
  outW : ℕ
  outH : ℕ
  newW : ℤ
  newH : ℤ
  offX : ℤ
  offY : ℤ
  bg : RGB
deriving DecidableEq

/-- `resize_with_mode` (lines 63-101), embedded at the level of the
dimension and offset arithmetic it performs.  The float aspect ratios
`iw / ih` and `tw / th` are modelled exactly over `ℚ`, Python `round`
as `pyRound` and `//` as `Int.fdiv` (floor division).  An unknown mode
raises `ValueError` before any aspect computation.  The background
defaults to white as in the source. -/
def resize_with_mode (iw ih tw th : ℕ) (mode : String)
    (bg : RGB := (255, 255, 255)) : Except String Geom :=
  if mode ≠ fitMode ∧ mode ≠ fillMode then Except.error modeErrMsg
  else
    let srcAspect : ℚ := (iw : ℚ) / (ih : ℚ)
    let dstAspect : ℚ := (tw : ℚ) / (th : ℚ)
    if mode = fitMode then
      if srcAspect > dstAspect then
        let nw : ℤ := (tw : ℤ)
        let nh : ℤ := pyRound ((tw : ℚ) / srcAspect)
        Except.ok ⟨tw, th, nw, nh, ((tw : ℤ) - nw).fdiv 2,
          ((th : ℤ) - nh).fdiv 2, bg⟩
      else
        let nh : ℤ := (th : ℤ)
        let nw : ℤ := pyRound ((th : ℚ) * srcAspect)
        Except.ok ⟨tw, th, nw, nh, ((tw : ℤ) - nw).fdiv 2,
          ((th : ℤ) - nh).fdiv 2, bg⟩
    else
      if srcAspect < dstAspect then
        let nw : ℤ := (tw : ℤ)
        let nh : ℤ := pyRound ((tw : ℚ) / srcAspect)
        Except.ok ⟨tw, th, nw, nh, (nw - (tw : ℤ)).fdiv 2,
          (nh - (th : ℤ)).fdiv 2, bg⟩
      else
        let nh : ℤ := (th : ℤ)
        let nw : ℤ := pyRound ((th : ℚ) * srcAspect)
        Except.ok ⟨tw, th, nw, nh, (nw - (tw : ℤ)).fdiv 2,
          (nh - (th : ℤ)).fdiv 2, bg⟩

/-- The full contract claimed for `fit` mode at source size
`(iw, ih)` and target `(tw, th)` with background `bg`: the result is a
canvas of exactly the target size, scaled dimensions follow the
aspect-ratio comparison with `pyRound`, offsets are floor-divided
centering offsets, and the scaled source fits entirely inside the
canvas (no source content discarded). -/
def FitSpecHolds (iw ih tw th : ℕ) (bg : RGB) : Prop :=
  ∃ g : Geom,
    resize_with_mode iw ih tw th fitMode bg = Except.ok g ∧
    g.outW = tw ∧ g.outH = th ∧
    ((iw : ℚ) / (ih : ℚ) > (tw : ℚ) / (th : ℚ) →
      g.newW = (tw : ℤ) ∧ g.newH = pyRound ((tw : ℚ) / ((iw : ℚ) / (ih : ℚ)))) ∧
    (¬ ((iw : ℚ) / (ih : ℚ) > (tw : ℚ) / (th : ℚ)) →
      g.newH = (th : ℤ) ∧ g.newW = pyRound ((th : ℚ) * ((iw : ℚ) / (ih : ℚ)))) ∧
    g.offX = ((tw : ℤ) - g.newW).fdiv 2 ∧
    g.offY = ((th : ℤ) - g.newH).fdiv 2 ∧
    0 ≤ g.offX ∧ 0 ≤ g.offY ∧ 0 ≤ g.newW ∧ 0 ≤ g.newH ∧
    g.offX + g.newW ≤ (tw : ℤ) ∧ g.offY + g.newH ≤ (th : ℤ) ∧
    g.bg = bg

/-- The full contract claimed for `fill` mode: the crop box is exactly
the target size, scaled dimensions follow the aspect-ratio comparison
with `pyRound`, both crop offsets are non-negative floor-divided
centering offsets, and the scaled image covers the whole target (the
crop box lies inside the scaled image). -/
def FillSpecHolds (iw ih tw th : ℕ) (bg : RGB) : Prop :=
  ∃ g : Geom,
    resize_with_mode iw ih tw th fillMode bg = Except.ok g ∧
    g.outW = tw ∧ g.outH = th ∧
    ((iw : ℚ) / (ih : ℚ) < (tw : ℚ) / (th : ℚ) →
      g.newW = (tw : ℤ) ∧ g.newH = pyRound ((tw : ℚ) / ((iw : ℚ) / (ih : ℚ)))) ∧
    (¬ ((iw : ℚ) / (ih : ℚ) < (tw : ℚ) / (th : ℚ)) →
      g.newH = (th : ℤ) ∧ g.newW = pyRound ((th : ℚ) * ((iw : ℚ) / (ih : ℚ)))) ∧
    g.offX = (g.newW - (tw : ℤ)).fdiv 2 ∧
    g.offY = (g.newH - (th : ℤ)).fdiv 2 ∧
    0 ≤ g.offX ∧ 0 ≤ g.offY ∧
    (tw : ℤ) ≤ g.newW ∧ (th : ℤ) ≤ g.newH ∧
    g.offX + (tw : ℤ) ≤ g.newW ∧ g.offY + (th : ℤ) ≤ g.newH

/-- The three optional tone adjustments of `enhance_image`, in the
fixed order the source applies them. -/
inductive ToneOp
  | contrast
  | saturation
  | sharpness
deriving DecidableEq

/-- `enhance_image` (lines 103-111), abstracted over the three PIL
enhancement operators (`ImageEnhance.Contrast/Color/Sharpness`, taken
as opaque functions `fC`, `fS`, `fSh`).  Each Python guard
`if m and abs(m - 1.0) > 1e-3` tests both truthiness (`m ≠ 0`) and the
epsilon distance from 1.0. -/
def enhance_image {α : Type} (fC fS fSh : ℚ → α → α) (img : α)
    (contrast saturation sharpness : ℚ) : α :=
  let i1 := if contrast ≠ 0 ∧ |contrast - 1| > 1 / 1000 then
      fC contrast img else img
  let i2 := if saturation ≠ 0 ∧ |saturation - 1| > 1 / 1000 then
      fS saturation i1 else i1
  if sharpness ≠ 0 ∧ |sharpness - 1| > 1 / 1000 then fSh sharpness i2 else i2

/-- The tone stage exactly as the claim words it: each adjustment
applied if and only if its multiplier differs from 1.0 by more than
1e-3 (no truthiness test).  Kept separate from `enhance_image` to
compare the spec's words with the source. -/
def enhanceClaimed {α : Type} (fC fS fSh : ℚ → α → α) (img : α)
    (contrast saturation sharpness : ℚ) : α :=
  let i1 := if |contrast - 1| > 1 / 1000 then fC contrast img else img
  let i2 := if |saturation - 1| > 1 / 1000 then fS saturation i1 else i1
  if |sharpness - 1| > 1 / 1000 then fSh sharpness i2 else i2

/-- The list of tone adjustments `enhance_image` actually applies, in
application order. -/
def enhanceOps (c s sh : ℚ) : List ToneOp :=
  (if c ≠ 0 ∧ |c - 1| > 1 / 1000 then [ToneOp.contrast] else []) ++
    (if s ≠ 0 ∧ |s - 1| > 1 / 1000 then [ToneOp.saturation] else []) ++
    (if sh ≠ 0 ∧ |sh - 1| > 1 / 1000 then [ToneOp.sharpness] else [])

/-- Apply one tone adjustment with its configured multiplier. -/
def applyTone {α : Type} (fC fS fSh : ℚ → α → α) (c s sh : ℚ)
    (img : α) : ToneOp → α
  | ToneOp.contrast => fC c img
  | ToneOp.saturation => fS s img
  | ToneOp.sharpness => fSh sh img

/-- The amended tone-stage contract: `enhance_image` is the in-order
fold of exactly those adjustments whose multiplier is nonzero and
differs from 1.0 by more than 1e-3, the applied set is characterised
by that condition, the order is the fixed
contrast-saturation-sharpness order, and when nothing is applied the
image is returned unchanged. -/
def EnhanceSpecHolds {α : Type} (fC fS fSh : ℚ → α → α) (img : α)
    (c s sh : ℚ) : Prop :=
  enhance_image fC fS fSh img c s sh =
      (enhanceOps c s sh).foldl (applyTone fC fS fSh c s sh) img ∧
  (ToneOp.contrast ∈ enhanceOps c s sh ↔ c ≠ 0 ∧ |c - 1| > 1 / 1000) ∧
  (ToneOp.saturation ∈ enhanceOps c s sh ↔ s ≠ 0 ∧ |s - 1| > 1 / 1000) ∧
  (ToneOp.sharpness ∈ enhanceOps c s sh ↔ sh ≠ 0 ∧ |sh - 1| > 1 / 1000) ∧
  List.Sublist (enhanceOps c s sh)
    [ToneOp.contrast, ToneOp.saturation, ToneOp.sharpness] ∧
  (enhanceOps c s sh = [] → enhance_image fC fS fSh img c s sh = img)

/-- The per-item loop of `main` (lines 182-215): each input either
converts successfully (`none`) or raises some exception (`some msg`);
the loop catches, counts and continues, threading the two counters. -/
def batchLoop : List (Option String) → ℕ → ℕ → ℕ × ℕ
  | [], ok, err => (ok, err)
  | none :: rest, ok, err => batchLoop rest (ok + 1) err
  | some _ :: rest, ok, err => batchLoop rest ok (err + 1)

/-- The final `(Converted, Errors)` tally `main` prints after the
batch. -/
def mainTally (outcomes : List (Option String)) : ℕ × ℕ :=
  batchLoop outcomes 0 0

/-- The process exit status of `main`: `sys.exit(1)` when any error
was counted, normal exit (0) otherwise. -/
def mainExitCode (outcomes : List (Option String)) : ℕ :=
  if 0 < (mainTally outcomes).2 then 1 else 0

/-- Value of a hexadecimal digit character, if it is one. -/
def hexVal (c : Char) : Option ℕ :=
  if 48 ≤ c.toNat ∧ c.toNat ≤ 57 then some (c.toNat - 48)
  else if 97 ≤ c.toNat ∧ c.toNat ≤ 102 then some (c.toNat - 87)
  else if 65 ≤ c.toNat ∧ c.toNat ≤ 70 then some (c.toNat - 55)
  else none

/-- Value of a two-hex-digit byte, if both characters are hex digits. -/
def hexPair (a b : Char) : Option ℕ :=
  match hexVal a, hexVal b with
  | some x, some y => some (16 * x + y)
  | _, _ => none

/-- Modelled from the spec: PIL hex-triplet colour parsing of the
forms `#RGB` (each nibble doubled) and `#RRGGBB`. -/
def parseHexColor (s : String) : Option RGB :=
  match s.data with
  | ['#', r1, r2, g1, g2, b1, b2] =>
      match hexPair r1 r2, hexPair g1 g2, hexPair b1 b2 with
      | some r, some g, some b => some (r, g, b)
      | _, _, _ => none
  | ['#', r, g, b] =>
      match hexVal r, hexVal g, hexVal b with
      | some x, some y, some z => some (17 * x, 17 * y, 17 * z)
      | _, _, _ => none
  | _ => none

/-- Modelled from the spec: a small CSS colour-name table (the spec
asks only for a reasonable small name table). -/
def colorNames : List (String × RGB) :=
  [("white", (255, 255, 255)), ("black", (0, 0, 0)), ("red", (255, 0, 0)),
   ("yellow", (255, 255, 0)), ("blue", (0, 0, 255)), ("green", (0, 128, 0)),
   ("orange", (255, 165, 0))]

/-- Modelled from the spec: PIL colour parsing as performed by
`Image.new("RGB", (1, 1), color)` — name table plus hex triplets,
`none` when unparseable. -/
def pilParseColor (s : String) : Option RGB :=
  match colorNames.find? (fun e => e.1 == s) with
  | some e => some e.2
  | none => parseHexColor s

/-- Whether a string starts with the `#` character
(`args.bg.startswith("#")`). -/
def startsWithHash (s : String) : Bool :=
  match s.data with
  | [] => false
  | c :: _ => c == '#'

/-- The background-colour computation of `main` (lines 166-175).  For
a string starting with `#` of length 4 or 7 the source first evaluates
a dummy expression that raises `AttributeError` before PIL parsing is
reached, so the `except` branch leaves the white default; for every
other string PIL parsing is attempted, with unparseable strings also
falling back to white. -/
def mainBgColor (s : String) : RGB :=
  if startsWithHash s ∧ (s.length = 4 ∨ s.length = 7) then (255, 255, 255)
  else
    match pilParseColor s with
    | some c => c
    | none => (255, 255, 255)

/-- The `--bg` argument of the C6 failing input. -/
def hexRedArg : String := "#ff0000"

/-- A recognised colour name, for the working path of `--bg`. -/
def whiteArg : String := "white"

/-- An unparseable `--bg` argument. -/
def junkArg : String := "notacolor"

/-- The keyword arguments of `convert_to_waveshare_bmp`
(lines 217-229).  The function exposes no background-colour
parameter. -/
structure ConvertArgs where
  width : ℕ
  height : ℕ
  mode : String
  rotateDeg : ℕ
  dither : Bool
  contrast : ℚ
  saturation : ℚ
  sharpness : ℚ
  bmpMode : String
deriving DecidableEq

/-- The resize call of `convert_to_waveshare_bmp` (line 243):
`resize_with_mode(img, target, mode)` with the background argument
omitted, so the white default applies. -/
def convertResize (a : ConvertArgs) (iw ih : ℕ) : Except String Geom :=
  resize_with_mode iw ih a.width a.height a.mode

/-- The pipeline stages of `convert_to_waveshare_bmp` that touch the
input's pixel buffer. -/
inductive Step
  | decodePixels
  | rotatePixels
  | resizeStep
  | enhanceStep
  | quantizeStep
  | saveStep
deriving DecidableEq

/-- The operations `convert_to_waveshare_bmp` (lines 237-247) performs
on the pixel buffer, in order, together with the exception it raises,
if any: the input is always opened and converted to RGB first (a pixel
read/transform), then rotated when requested, and only then does
`resize_with_mode` validate the mode string and possibly raise
`ValueError`. -/
def convertTrace (a : ConvertArgs) (iw ih : ℕ) : List Step × Option String :=
  let pre := Step.decodePixels ::
    (if a.rotateDeg ≠ 0 then [Step.rotatePixels] else [])
  match convertResize a iw ih with
  | Except.error e => (pre, some e)
  | Except.ok _ =>
      (pre ++ [Step.resizeStep, Step.enhanceStep, Step.quantizeStep,
        Step.saveStep], none)

/-- The invalid mode string of the C7 scenario. -/
def stretchMode : String := "stretch"

/-- The fixed arguments `process_image` in `main.py` (lines 92-104)
passes to `convert_to_waveshare_bmp`. -/
def process_image_args : ConvertArgs :=
  ⟨800, 480, fitMode, 0, true, 3 / 2, 3 / 2, 1, "RGB"⟩

/-- The amended C7 contract: with a mode that is neither fit nor fill,
`convert_to_waveshare_bmp` raises the `ValueError` of
`resize_with_mode`, and no resize, enhancement, quantization or file
write happens — though the decode (and requested rotation) of the
input's pixels has already run. -/
def BadModeSpecHolds (a : ConvertArgs) (iw ih : ℕ) : Prop :=
  (convertTrace a iw ih).2 = some modeErrMsg ∧
  Step.resizeStep ∉ (convertTrace a iw ih).1 ∧
  Step.enhanceStep ∉ (convertTrace a iw ih).1 ∧
  Step.quantizeStep ∉ (convertTrace a iw ih).1 ∧
  Step.saveStep ∉ (convertTrace a iw ih).1 ∧
  Step.decodePixels ∈ (convertTrace a iw ih).1

/-- The pixel at canvas position `(x, y)` after the `fit`-mode
paste-on-canvas: the scaled source inside the paste rectangle, the
canvas background colour outside it. -/
def geomPixel (g : Geom) (scaled : ℤ × ℤ → RGB) (x y : ℤ) : RGB :=
  if g.offX ≤ x ∧ x < g.offX + g.newW ∧ g.offY ≤ y ∧ y < g.offY + g.newH then
    scaled (x - g.offX, y - g.offY)
  else g.bg

/-- The C10 contract for a resize geometry `g`: the canvas background
is white and every canvas pixel outside the pasted rectangle (the
letterbox margin) is white. -/
def MarginsWhite (g : Geom) : Prop :=
  g.bg = (255, 255, 255) ∧
  ∀ (scaled : ℤ × ℤ → RGB) (x y : ℤ),
    ¬ (g.offX ≤ x ∧ x < g.offX + g.newW ∧ g.offY ≤ y ∧ y < g.offY + g.newH) →
    geomPixel g scaled x y = (255, 255, 255)

/-- Two little-endian bytes of a 16-bit field. -/
def le16 (n : ℕ) : List ℕ := [n % 256, n / 256 % 256]

/-- Four little-endian bytes of a 32-bit field. -/
def le32 (n : ℕ) : List ℕ :=
  [n % 256, n / 256 % 256, n / 65536 % 256, n / 16777216 % 256]

/-- Byte stride of an 8-bit bitmap row: the row length padded up to
the next multiple of 4. -/
def bmpStride8 (w : ℕ) : ℕ := ((w + 3) / 4) * 4

/-- Byte offset of the pixel array: 14-byte file header + 40-byte info
header + 1024-byte colour table. -/
def bmpDataOffset : ℕ := 14 + 40 + 1024

/-- Modelled from the spec: the 54 header bytes of the 8-bit indexed
bitmap variant — `BM`, file size, reserved zeros, data offset, then
the info header declaring 8 bits per pixel, no compression, and 256
palette entries. -/
def bmpHeaders (w h : ℕ) : List ℕ :=
  [66, 77] ++ le32 (bmpDataOffset + h * bmpStride8 w) ++ le16 0 ++ le16 0 ++
    le32 bmpDataOffset ++ le32 40 ++ le32 w ++ le32 h ++ le16 1 ++ le16 8 ++
    le32 0 ++ le32 (h * bmpStride8 w) ++ le32 2835 ++ le32 2835 ++
    le32 256 ++ le32 0

/-- Modelled from the spec: the 1024-byte colour table — 256 four-byte
B,G,R,0 entries, the first 7 holding the palette in declared order,
the remaining 249 zero-filled. -/
def bmpColorTable : List ℕ :=
  palette256.flatMap (fun c => [c.2.2, c.2.1, c.1, 0])

/-- Modelled from the spec: the pixel array of the 8-bit indexed
bitmap — one palette-index byte per pixel, rows bottom-to-top, each
row zero-padded to a multiple of 4 bytes. -/
def bmpPixelArray8 (w : ℕ) (rows : List (List ℕ)) : List ℕ :=
  rows.reverse.flatMap (fun row => row ++ List.replicate (bmpStride8 w - w) 0)

/-- Modelled from the spec: the full 8-bit indexed bitmap file written
by `save_bmp` with `bmp_mode="P"` (standard uncompressed Windows
layout) for a `w × h` indexed image given as `h` rows of `w` palette
indices. -/
def encodeBMP8 (w h : ℕ) (rows : List (List ℕ)) : List ℕ :=
  bmpHeaders w h ++ (bmpColorTable ++ bmpPixelArray8 w rows)

/-- Re-read colour-table entry `i` of an encoded bitmap as an RGB
triple: the table starts at byte 54 and stores B,G,R,0 per entry. -/
def readColorTableEntry (bs : List ℕ) (i : ℕ) : RGB :=
  (bs.getD (54 + 4 * i + 2) 0, bs.getD (54 + 4 * i + 1) 0,
    bs.getD (54 + 4 * i) 0)

/-- Re-read the whole 256-entry colour table of an encoded bitmap. -/
def readColorTable (bs : List ℕ) : List RGB :=
  (List.range 256).map (readColorTableEntry bs)

/-- The C8 contract for the indexed bitmap encoding of a `w × h`
indexed image: re-reading the colour table yields exactly the 7
palette colours in declared order at indices 0-6 with the rest
zero-filled; the row stride is a multiple of 4 no smaller than `w`;
the pixel array has one byte per pixel plus padding, stored
bottom-to-top, with image row `r`, column `c` at file row `h-1-r` and
the padding bytes zero. -/
def Bmp8SpecHolds (w h : ℕ) (rows : List (List ℕ)) : Prop :=
  readColorTable (encodeBMP8 w h rows) =
      WAVESHARE_7C_PALETTE ++ List.replicate 249 ((0, 0, 0) : RGB) ∧
  bmpStride8 w % 4 = 0 ∧ w ≤ bmpStride8 w ∧
  (bmpPixelArray8 w rows).length = h * bmpStride8 w ∧
  (∀ r c, r < h → c < w →
    (bmpPixelArray8 w rows).getD ((h - 1 - r) * bmpStride8 w + c) 0 =
      (rows.getD r []).getD c 0) ∧
  (∀ r c, r < h → w ≤ c → c < bmpStride8 w →
    (bmpPixelArray8 w rows).getD ((h - 1 - r) * bmpStride8 w + c) 0 = 0)

/- ### Facts about the scanning classifier -/

theorem scanMin_idx (p : RGB) (st : ℕ × ℕ × ℤ) (cs : List RGB) :
    (scanMin p st cs).1 = st.1 + cs.length := by
  induction cs generalizing st with
  | nil => simp [scanMin]
  | cons c cs ih =>
    obtain ⟨i, bi, bd⟩ := st
    by_cases h : dist2 p c < bd <;> simp [scanMin, h, ih] <;> omega

theorem scanMin_bd_le (p : RGB) (st : ℕ × ℕ × ℤ) (cs : List RGB) :
    (scanMin p st cs).2.2 ≤ st.2.2 := by
  induction cs generalizing st with
  | nil => simp [scanMin]
  | cons c cs ih =>
    obtain ⟨i, bi, bd⟩ := st
    by_cases h : dist2 p c < bd
    · simpa [scanMin, h] using le_trans (ih (i + 1, i, dist2 p c)) (le_of_lt h)
    · simpa [scanMin, h] using ih (i + 1, bi, bd)

theorem scanMin_best_lt (p : RGB) (st : ℕ × ℕ × ℤ) (cs : List RGB)
    (h : st.2.1 < st.1) : (scanMin p st cs).2.1 < (scanMin p st cs).1 := by
  induction cs generalizing st with
  | nil => simpa [scanMin] using h
  | cons c cs ih =>
    obtain ⟨i, bi, bd⟩ := st
    by_cases hc : dist2 p c < bd
    · rw [show scanMin p (i, bi, bd) (c :: cs) =
          scanMin p (i + 1, i, dist2 p c) cs from by simp [scanMin, hc]]
      exact ih (i + 1, i, dist2 p c) (Nat.lt_succ_self i)
    · rw [show scanMin p (i, bi, bd) (c :: cs) =
          scanMin p (i + 1, bi, bd) cs from by simp [scanMin, hc]]
      exact ih (i + 1, bi, bd) (Nat.lt_succ_of_lt h)

theorem scanMin_skip (p : RGB) (st : ℕ × ℕ × ℤ) (cs : List RGB)
    (h : ∀ c ∈ cs, st.2.2 ≤ dist2 p c) :
    scanMin p st cs = (st.1 + cs.length, st.2.1, st.2.2) := by
  induction cs generalizing st with
  | nil => simp [scanMin]
  | cons c cs ih =>
    obtain ⟨i, bi, bd⟩ := st
    have hc : ¬ dist2 p c < bd := not_lt.mpr (h c (by simp))
    have hrec := ih (i + 1, bi, bd) (fun d hd => h d (by simp [hd]))
    rw [show scanMin p (i, bi, bd) (c :: cs) =
        scanMin p (i + 1, bi, bd) cs from by simp [scanMin, hc], hrec]
    simp only [List.length_cons]
    exact congrArg (fun n => (n, bi, bd)) (by omega)

theorem scanMin_append (p : RGB) (st : ℕ × ℕ × ℤ) (xs ys : List RGB) :
    scanMin p st (xs ++ ys) = scanMin p (scanMin p st xs) ys := by
  induction xs generalizing st with
  | nil => simp [scanMin]
  | cons c cs ih =>
    obtain ⟨i, bi, bd⟩ := st
    by_cases h : dist2 p c < bd <;> simp [scanMin, h, ih]

/-- Every pixel classifies to one of the 7 leading palette entries:
the 249 zero-filled placeholders repeat entry 0 and are never chosen
over it because replacement requires a strictly smaller distance. -/
theorem classify_le_six (p : RGB) : classify p ≤ 6 := by
  have h0 : classify p =
      (scanMin p (scanMin p (1, 0, dist2 p ((0, 0, 0) : RGB)) palTail)
        (List.replicate 249 ((0, 0, 0) : RGB))).2.1 := by
    have h1 : classify p =
        (scanMin p (1, 0, dist2 p ((0, 0, 0) : RGB))
          (palTail ++ List.replicate 249 ((0, 0, 0) : RGB))).2.1 := rfl
    rw [h1, scanMin_append]
  rw [h0]
  rcases hst : scanMin p (1, 0, dist2 p ((0, 0, 0) : RGB)) palTail
    with ⟨i7, b7, d7⟩
  have hidx : i7 = 7 := by
    have h2 := scanMin_idx p (1, 0, dist2 p ((0, 0, 0) : RGB)) palTail
    rw [hst] at h2
    simpa [palTail] using h2
  have hbd : d7 ≤ dist2 p ((0, 0, 0) : RGB) := by
    have h3 := scanMin_bd_le p (1, 0, dist2 p ((0, 0, 0) : RGB)) palTail
    rw [hst] at h3
    exact h3
  have hbest : b7 < i7 := by
    have h4 := scanMin_best_lt p (1, 0, dist2 p ((0, 0, 0) : RGB)) palTail
      (Nat.zero_lt_one)
    rw [hst] at h4
    exact h4
  have hskip := scanMin_skip p (i7, b7, d7)
    (List.replicate 249 ((0, 0, 0) : RGB))
    (fun c hc => by rw [List.eq_of_mem_replicate hc]; exact hbd)
  rw [hskip]
  show b7 ≤ 6
  omega

/-- Every index emitted by a Floyd-Steinberg run is the classification
of some clamped colour. -/
theorem fsRun_mem (w total : ℕ) (n : ℕ) :
    ∀ (k : ℕ) (buf : List QRGB) (i : ℕ), i ∈ fsRun w total n k buf →
      ∃ c, i = classify c := by
  induction n with
  | zero => intro k buf i hi; simp [fsRun] at hi
  | succ n ih =>
    intro k buf i hi
    simp only [fsRun, List.mem_cons] at hi
    rcases hi with hi | hi
    · exact ⟨clampRGB (buf.getD k (0, 0, 0)), by simpa [fsStep] using hi⟩
    · exact ih (k + 1) _ i hi

/-- C1: for every RGB input image and for both dithering settings,
every pixel value of the image returned by `quantize_to_7c` is a
palette index in `[0, 6]` — none of the 249 zero-filled placeholder
entries of the 256-entry palette table is ever assigned to a pixel. -/
theorem quantize_to_7c_index_le_six (w h : ℕ) (px : List RGB) (d : Bool)
    (i : ℕ) (hi : i ∈ quantize_to_7c w h px d) : i ≤ 6 := by
  cases d with
  | true =>
    simp only [quantize_to_7c, if_true, quantizeDither] at hi
    obtain ⟨c, rfl⟩ := fsRun_mem w (w * h) (w * h) 0 (px.map toQ) i hi
    exact classify_le_six c
  | false =>
    simp only [quantize_to_7c, Bool.false_eq_true, if_false, quantizeNoDither,
      List.mem_map] at hi
    obtain ⟨c, _, rfl⟩ := hi
    exact classify_le_six c

/-- Witness for C1 at a concrete dithered 1×2 image. -/
theorem quantize_to_7c_index_le_six_witness :
    0 ∈ quantize_to_7c 1 2 [(10, 20, 30), (250, 0, 0)] true ∧ 0 ≤ 6 :=
  ⟨by decide,
   quantize_to_7c_index_le_six 1 2 [(10, 20, 30), (250, 0, 0)] true 0
     (by decide)⟩

/-- Each of the 7 real palette colours classifies to its own index. -/
theorem classify_palette_entry :
    ∀ j, j ≤ 6 → classify (palette256.getD j ((0, 0, 0) : RGB)) = j := by
  decide

/-- C9: quantizing without dithering is idempotent — expanding the
indexed result back to RGB and quantizing again without dithering
yields the identical indexed buffer (stated, as the claim does, for
images whose pixels are already palette colours). -/
theorem quantize_nodither_idempotent (w h : ℕ) (px : List RGB)
    (_hpx : ∀ p ∈ px, p ∈ WAVESHARE_7C_PALETTE) :
    quantize_to_7c w h (expandRGB (quantize_to_7c w h px false)) false =
      quantize_to_7c w h px false := by
  simp only [quantize_to_7c, Bool.false_eq_true, if_false, quantizeNoDither,
    expandRGB, List.map_map]
  refine List.map_congr_left (fun p _ => ?_)
  simp only [Function.comp]
  exact classify_palette_entry (classify p) (classify_le_six p)

/-- Witness for C9 on a concrete palette-only 2×1 image. -/
theorem quantize_nodither_idempotent_witness :
    quantize_to_7c 2 1
        (expandRGB (quantize_to_7c 2 1 [(255, 0, 0), (0, 0, 0)] false)) false =
      quantize_to_7c 2 1 [(255, 0, 0), (0, 0, 0)] false :=
  quantize_nodither_idempotent 2 1 [(255, 0, 0), (0, 0, 0)] (by decide)

/- ### Facts about pyRound and floor division -/

theorem pyRound_cases (x : ℚ) : pyRound x = ⌊x⌋ ∨ pyRound x = ⌊x⌋ + 1 := by
  unfold pyRound
  split_ifs <;> simp

theorem floor_le_pyRound (x : ℚ) : ⌊x⌋ ≤ pyRound x := by
  rcases pyRound_cases x with h | h <;> omega

theorem pyRound_le_floor_add_one (x : ℚ) : pyRound x ≤ ⌊x⌋ + 1 := by
  rcases pyRound_cases x with h | h <;> omega

theorem pyRound_intCast (n : ℤ) : pyRound ((n : ℚ)) = n := by
  unfold pyRound
  rw [Int.floor_intCast]
  norm_num

theorem pyRound_le_of_le {x : ℚ} {n : ℤ} (h : x ≤ (n : ℚ)) : pyRound x ≤ n := by
  have hfl : ⌊x⌋ ≤ n := by
    have h2 := Int.floor_le_floor h
    simpa using h2
  rcases eq_or_lt_of_le hfl with heq | hlt
  · have hnx : (n : ℚ) ≤ x := by
      rw [← heq]
      exact Int.floor_le x
    rw [le_antisymm h hnx, pyRound_intCast]
  · exact le_trans (pyRound_le_floor_add_one x) (by omega)

theorem le_pyRound_of_le {x : ℚ} {n : ℤ} (h : (n : ℚ) ≤ x) : n ≤ pyRound x :=
  le_trans (Int.le_floor.mpr h) (floor_le_pyRound x)

theorem fdiv_two_eq (a : ℤ) : a.fdiv 2 = a / 2 :=
  Int.fdiv_eq_ediv a (by norm_num)

/- ### Evaluation of resize_with_mode in each mode -/

theorem resize_fit_eval (iw ih tw th : ℕ) (bg : RGB) :
    resize_with_mode iw ih tw th fitMode bg =
      if (iw : ℚ) / (ih : ℚ) > (tw : ℚ) / (th : ℚ) then
        Except.ok ⟨tw, th, (tw : ℤ), pyRound ((tw : ℚ) / ((iw : ℚ) / (ih : ℚ))),
          ((tw : ℤ) - (tw : ℤ)).fdiv 2,
          ((th : ℤ) - pyRound ((tw : ℚ) / ((iw : ℚ) / (ih : ℚ)))).fdiv 2, bg⟩
      else
        Except.ok ⟨tw, th, pyRound ((th : ℚ) * ((iw : ℚ) / (ih : ℚ))), (th : ℤ),
          ((tw : ℤ) - pyRound ((th : ℚ) * ((iw : ℚ) / (ih : ℚ)))).fdiv 2,
          ((th : ℤ) - (th : ℤ)).fdiv 2, bg⟩ := by
  unfold resize_with_mode
  rw [if_neg (by decide), if_pos rfl]

theorem resize_fill_eval (iw ih tw th : ℕ) (bg : RGB) :
    resize_with_mode iw ih tw th fillMode bg =
      if (iw : ℚ) / (ih : ℚ) < (tw : ℚ) / (th : ℚ) then
        Except.ok ⟨tw, th, (tw : ℤ), pyRound ((tw : ℚ) / ((iw : ℚ) / (ih : ℚ))),
          ((tw : ℤ) - (tw : ℤ)).fdiv 2,
          (pyRound ((tw : ℚ) / ((iw : ℚ) / (ih : ℚ))) - (th : ℤ)).fdiv 2, bg⟩
      else
        Except.ok ⟨tw, th, pyRound ((th : ℚ) * ((iw : ℚ) / (ih : ℚ))), (th : ℤ),
          (pyRound ((th : ℚ) * ((iw : ℚ) / (ih : ℚ))) - (tw : ℤ)).fdiv 2,
          ((th : ℤ) - (th : ℤ)).fdiv 2, bg⟩ := by
  unfold resize_with_mode
  rw [if_neg (by decide), if_neg (by decide)]

/-- C2: `resize_with_mode` in `fit` mode always returns a canvas of
exactly the target size, scales by the claimed aspect-ratio rule,
centers with floor-divided offsets, and the scaled source fits
entirely inside the canvas, so no source content is discarded. -/
theorem resize_fit_spec (iw ih tw th : ℕ) (bg : RGB)
    (hiw : 0 < iw) (hih : 0 < ih) (htw : 0 < tw) (hth : 0 < th) :
    FitSpecHolds iw ih tw th bg := by
  have hihQ : (0 : ℚ) < (ih : ℚ) := by exact_mod_cast hih
  have hiwQ : (0 : ℚ) < (iw : ℚ) := by exact_mod_cast hiw
  have htwQ : (0 : ℚ) < (tw : ℚ) := by exact_mod_cast htw
  have hthQ : (0 : ℚ) < (th : ℚ) := by exact_mod_cast hth
  by_cases hgt : (iw : ℚ) / (ih : ℚ) > (tw : ℚ) / (th : ℚ)
  · have hx : (tw : ℚ) / ((iw : ℚ) / (ih : ℚ)) ≤ (th : ℚ) := by
      rw [div_div_eq_mul_div, div_le_iff₀ hiwQ]
      rw [gt_iff_lt, div_lt_div_iff₀ hthQ hihQ] at hgt
      nlinarith
    have hnh_le : pyRound ((tw : ℚ) / ((iw : ℚ) / (ih : ℚ))) ≤ (th : ℤ) :=
      pyRound_le_of_le (by exact_mod_cast hx)
    have hnh_nn : (0 : ℤ) ≤ pyRound ((tw : ℚ) / ((iw : ℚ) / (ih : ℚ))) :=
      le_pyRound_of_le (by positivity)
    refine ⟨⟨tw, th, (tw : ℤ), pyRound ((tw : ℚ) / ((iw : ℚ) / (ih : ℚ))),
      ((tw : ℤ) - (tw : ℤ)).fdiv 2,
      ((th : ℤ) - pyRound ((tw : ℚ) / ((iw : ℚ) / (ih : ℚ)))).fdiv 2, bg⟩,
      by rw [resize_fit_eval, if_pos hgt], rfl, rfl, fun _ => ⟨rfl, rfl⟩,
      fun hc => absurd hgt hc, rfl, rfl, ?_, ?_, ?_, ?_, ?_, ?_, rfl⟩
    · show (0 : ℤ) ≤ ((tw : ℤ) - (tw : ℤ)).fdiv 2
      rw [fdiv_two_eq]
      omega
    · show (0 : ℤ) ≤ ((th : ℤ) - pyRound ((tw : ℚ) / ((iw : ℚ) / (ih : ℚ)))).fdiv 2
      rw [fdiv_two_eq]
      omega
    · show (0 : ℤ) ≤ (tw : ℤ)
      omega
    · exact hnh_nn
    · show ((tw : ℤ) - (tw : ℤ)).fdiv 2 + (tw : ℤ) ≤ (tw : ℤ)
      rw [fdiv_two_eq]
      omega
    · show ((th : ℤ) - pyRound ((tw : ℚ) / ((iw : ℚ) / (ih : ℚ)))).fdiv 2 +
          pyRound ((tw : ℚ) / ((iw : ℚ) / (ih : ℚ))) ≤ (th : ℤ)
      rw [fdiv_two_eq]
      omega
  · have hle : (iw : ℚ) / (ih : ℚ) ≤ (tw : ℚ) / (th : ℚ) := not_lt.mp hgt
    have hy : (th : ℚ) * ((iw : ℚ) / (ih : ℚ)) ≤ (tw : ℚ) := by
      have h1 : (th : ℚ) * ((iw : ℚ) / (ih : ℚ)) ≤
          (th : ℚ) * ((tw : ℚ) / (th : ℚ)) :=
        mul_le_mul_of_nonneg_left hle (le_of_lt hthQ)
      have h2 : (th : ℚ) * ((tw : ℚ) / (th : ℚ)) = (tw : ℚ) := by
        field_simp
      rw [h2] at h1
      exact h1
    have hnw_le : pyRound ((th : ℚ) * ((iw : ℚ) / (ih : ℚ))) ≤ (tw : ℤ) :=
      pyRound_le_of_le (by exact_mod_cast hy)
    have hnw_nn : (0 : ℤ) ≤ pyRound ((th : ℚ) * ((iw : ℚ) / (ih : ℚ))) :=
      le_pyRound_of_le (by positivity)
    refine ⟨⟨tw, th, pyRound ((th : ℚ) * ((iw : ℚ) / (ih : ℚ))), (th : ℤ),
      ((tw : ℤ) - pyRound ((th : ℚ) * ((iw : ℚ) / (ih : ℚ)))).fdiv 2,
      ((th : ℤ) - (th : ℤ)).fdiv 2, bg⟩,
      by rw [resize_fit_eval, if_neg hgt], rfl, rfl, fun hc => absurd hc hgt,
      fun _ => ⟨rfl, rfl⟩, rfl, rfl, ?_, ?_, ?_, ?_, ?_, ?_, rfl⟩
    · show (0 : ℤ) ≤ ((tw : ℤ) - pyRound ((th : ℚ) * ((iw : ℚ) / (ih : ℚ)))).fdiv 2
      rw [fdiv_two_eq]
      omega
    · show (0 : ℤ) ≤ ((th : ℤ) - (th : ℤ)).fdiv 2
      rw [fdiv_two_eq]
      omega
    · exact hnw_nn
    · show (0 : ℤ) ≤ (th : ℤ)
      omega
    · show ((tw : ℤ) - pyRound ((th : ℚ) * ((iw : ℚ) / (ih : ℚ)))).fdiv 2 +
          pyRound ((th : ℚ) * ((iw : ℚ) / (ih : ℚ))) ≤ (tw : ℤ)
      rw [fdiv_two_eq]
      omega
    · show ((th : ℤ) - (th : ℤ)).fdiv 2 + (th : ℤ) ≤ (th : ℤ)
      rw [fdiv_two_eq]
      omega

/-- Witness for C2 at a 600×600 source letterboxed onto an 800×480
canvas with a black background. -/
theorem resize_fit_spec_witness : FitSpecHolds 600 600 800 480 (0, 0, 0) :=
  resize_fit_spec 600 600 800 480 (0, 0, 0)
    (by decide) (by decide) (by decide) (by decide)

/-- C3: `resize_with_mode` in `fill` mode always crops to exactly the
target size, scales by the claimed aspect-ratio rule, and the crop
offsets are non-negative floor-divided centering offsets with the crop
box contained in the scaled image (the scaled image covers the
target). -/
theorem resize_fill_spec (iw ih tw th : ℕ) (bg : RGB)
    (hiw : 0 < iw) (hih : 0 < ih) (htw : 0 < tw) (hth : 0 < th) :
    FillSpecHolds iw ih tw th bg := by
  have hihQ : (0 : ℚ) < (ih : ℚ) := by exact_mod_cast hih
  have hiwQ : (0 : ℚ) < (iw : ℚ) := by exact_mod_cast hiw
  have htwQ : (0 : ℚ) < (tw : ℚ) := by exact_mod_cast htw
  have hthQ : (0 : ℚ) < (th : ℚ) := by exact_mod_cast hth
  by_cases hlt : (iw : ℚ) / (ih : ℚ) < (tw : ℚ) / (th : ℚ)
  · have hx : (th : ℚ) ≤ (tw : ℚ) / ((iw : ℚ) / (ih : ℚ)) := by
      rw [div_div_eq_mul_div, le_div_iff₀ hiwQ]
      rw [div_lt_div_iff₀ hihQ hthQ] at hlt
      nlinarith
    have hnh_ge : (th : ℤ) ≤ pyRound ((tw : ℚ) / ((iw : ℚ) / (ih : ℚ))) :=
      le_pyRound_of_le (by exact_mod_cast hx)
    refine ⟨⟨tw, th, (tw : ℤ), pyRound ((tw : ℚ) / ((iw : ℚ) / (ih : ℚ))),
      ((tw : ℤ) - (tw : ℤ)).fdiv 2,
      (pyRound ((tw : ℚ) / ((iw : ℚ) / (ih : ℚ))) - (th : ℤ)).fdiv 2, bg⟩,
      by rw [resize_fill_eval, if_pos hlt], rfl, rfl, fun _ => ⟨rfl, rfl⟩,
      fun hc => absurd hlt hc, rfl, rfl, ?_, ?_, ?_, ?_, ?_, ?_⟩
    · show (0 : ℤ) ≤ ((tw : ℤ) - (tw : ℤ)).fdiv 2
      rw [fdiv_two_eq]
      omega
    · show (0 : ℤ) ≤ (pyRound ((tw : ℚ) / ((iw : ℚ) / (ih : ℚ))) - (th : ℤ)).fdiv 2
      rw [fdiv_two_eq]
      omega
    · show (tw : ℤ) ≤ (tw : ℤ)
      omega
    · exact hnh_ge
    · show ((tw : ℤ) - (tw : ℤ)).fdiv 2 + (tw : ℤ) ≤ (tw : ℤ)
      rw [fdiv_two_eq]
      omega
    · show (pyRound ((tw : ℚ) / ((iw : ℚ) / (ih : ℚ))) - (th : ℤ)).fdiv 2 +
          (th : ℤ) ≤ pyRound ((tw : ℚ) / ((iw : ℚ) / (ih : ℚ)))
      rw [fdiv_two_eq]
      omega
  · have hle : (tw : ℚ) / (th : ℚ) ≤ (iw : ℚ) / (ih : ℚ) := not_lt.mp hlt
    have hy : (tw : ℚ) ≤ (th : ℚ) * ((iw : ℚ) / (ih : ℚ)) := by
      have h1 : (th : ℚ) * ((tw : ℚ) / (th : ℚ)) ≤
          (th : ℚ) * ((iw : ℚ) / (ih : ℚ)) :=
        mul_le_mul_of_nonneg_left hle (le_of_lt hthQ)
      have h2 : (th : ℚ) * ((tw : ℚ) / (th : ℚ)) = (tw : ℚ) := by
        field_simp
      rw [h2] at h1
      exact h1
    have hnw_ge : (tw : ℤ) ≤ pyRound ((th : ℚ) * ((iw : ℚ) / (ih : ℚ))) :=
      le_pyRound_of_le (by exact_mod_cast hy)
    refine ⟨⟨tw, th, pyRound ((th : ℚ) * ((iw : ℚ) / (ih : ℚ))), (th : ℤ),
      (pyRound ((th : ℚ) * ((iw : ℚ) / (ih : ℚ))) - (tw : ℤ)).fdiv 2,
      ((th : ℤ) - (th : ℤ)).fdiv 2, bg⟩,
      by rw [resize_fill_eval, if_neg hlt], rfl, rfl, fun hc => absurd hc hlt,
      fun _ => ⟨rfl, rfl⟩, rfl, rfl, ?_, ?_, ?_, ?_, ?_, ?_⟩
    · show (0 : ℤ) ≤ (pyRound ((th : ℚ) * ((iw : ℚ) / (ih : ℚ))) - (tw : ℤ)).fdiv 2
      rw [fdiv_two_eq]
      omega
    · show (0 : ℤ) ≤ ((th : ℤ) - (th : ℤ)).fdiv 2
      rw [fdiv_two_eq]
      omega
    · exact hnw_ge
    · show (th : ℤ) ≤ (th : ℤ)
      omega
    · show (pyRound ((th : ℚ) * ((iw : ℚ) / (ih : ℚ))) - (tw : ℤ)).fdiv 2 +
          (tw : ℤ) ≤ pyRound ((th : ℚ) * ((iw : ℚ) / (ih : ℚ)))
      rw [fdiv_two_eq]
      omega
    · show ((th : ℤ) - (th : ℤ)).fdiv 2 + (th : ℤ) ≤ (th : ℤ)
      rw [fdiv_two_eq]
      omega

/-- Witness for C3 at a 600×600 source cover-cropped to 800×480. -/
theorem resize_fill_spec_witness : FillSpecHolds 600 600 800 480 (255, 255, 255) :=
  resize_fill_spec 600 600 800 480 (255, 255, 255)
    (by decide) (by decide) (by decide) (by decide)

/- ### The tone stage (C5) -/

theorem enhanceOps_sublist (c s sh : ℚ) :
    List.Sublist (enhanceOps c s sh)
      [ToneOp.contrast, ToneOp.saturation, ToneOp.sharpness] := by
  unfold enhanceOps
  split_ifs <;> decide

/-- C5 counterexample: at contrast multiplier 0.0 the multiplier
differs from 1.0 by more than 1e-3, yet `enhance_image` applies no
adjustment (the Python truthiness guard skips a zero multiplier),
while the claimed behaviour would apply the contrast operator. -/
theorem enhance_truthiness_counterexample :
    |(0 : ℚ) - 1| > 1 / 1000 ∧
    enhance_image (fun _ n => n + 1) (fun _ n => n + 10) (fun _ n => n + 100)
        (0 : ℕ) 0 1 1 = 0 ∧
    enhanceClaimed (fun _ n => n + 1) (fun _ n => n + 10) (fun _ n => n + 100)
        (0 : ℕ) 0 1 1 = 1 := by
  have habs : |(0 : ℚ) - 1| = 1 := by
    rw [zero_sub, abs_neg, abs_one]
  have hgt : |(0 : ℚ) - 1| > 1 / 1000 := by
    rw [habs]
    norm_num
  have hzero : ¬((0 : ℚ) ≠ 0 ∧ |(0 : ℚ) - 1| > 1 / 1000) := by simp
  have hone : ¬((1 : ℚ) ≠ 0 ∧ |(1 : ℚ) - 1| > 1 / 1000) := by norm_num
  have honeAbs : ¬(|(1 : ℚ) - 1| > 1 / 1000) := by norm_num
  refine ⟨hgt, ?_, ?_⟩
  · simp only [enhance_image]
    rw [if_neg hzero, if_neg hone, if_neg hone]
  · simp only [enhanceClaimed]
    rw [if_pos hgt, if_neg honeAbs, if_neg honeAbs]

/-- C5 (amended): `enhance_image` applies, in the fixed order
contrast, saturation, sharpness, exactly those adjustments whose
multiplier is nonzero and differs from 1.0 by more than 1e-3, and
returns the input unchanged when none qualifies. -/
theorem enhance_image_foldl {α : Type} (fC fS fSh : ℚ → α → α) (img : α)
    (c s sh : ℚ) :
    enhance_image fC fS fSh img c s sh =
      (enhanceOps c s sh).foldl (applyTone fC fS fSh c s sh) img := by
  simp only [enhance_image, enhanceOps]
  split_ifs <;> rfl

theorem enhance_image_spec {α : Type} (fC fS fSh : ℚ → α → α) (img : α)
    (c s sh : ℚ) : EnhanceSpecHolds fC fS fSh img c s sh := by
  refine ⟨enhance_image_foldl fC fS fSh img c s sh, ?_, ?_, ?_,
    enhanceOps_sublist c s sh, ?_⟩
  · unfold enhanceOps
    split_ifs <;> simp_all
  · unfold enhanceOps
    split_ifs <;> simp_all
  · unfold enhanceOps
    split_ifs <;> simp_all
  · intro h
    rw [enhance_image_foldl fC fS fSh img c s sh, h]
    rfl

/-- Witness for the amended C5 at concrete multipliers and operators. -/
theorem enhance_image_spec_witness :
    EnhanceSpecHolds (fun _ n => n + 1) (fun _ n => n + 10)
      (fun _ n => n + 100) (5 : ℕ) 2 1 (1 / 2) :=
  enhance_image_spec (fun _ n => n + 1) (fun _ n => n + 10)
    (fun _ n => n + 100) 5 2 1 (1 / 2)

/- ### The batch loop (C4) -/

theorem batchLoop_eq (outcomes : List (Option String)) :
    ∀ ok err, batchLoop outcomes ok err =
      (ok + (outcomes.filter (fun o => o.isNone)).length,
       err + (outcomes.filter (fun o => o.isSome)).length) := by
  induction outcomes with
  | nil => intro ok err; simp [batchLoop]
  | cons o rest ih =>
    intro ok err
    cases o with
    | none =>
      have hstep : batchLoop (none :: rest) ok err = batchLoop rest (ok + 1) err :=
        rfl
      have hf : (List.filter (fun o => o.isNone) ((none : Option String) :: rest)).length =
          (List.filter (fun o => o.isNone) rest).length + 1 := by simp
      have hg : (List.filter (fun o => o.isSome) ((none : Option String) :: rest)).length =
          (List.filter (fun o => o.isSome) rest).length := by simp
      rw [hstep, ih, hf, hg, Prod.mk.injEq]
      omega
    | some e =>
      have hstep : batchLoop (some e :: rest) ok err = batchLoop rest ok (err + 1) :=
        rfl
      have hf : (List.filter (fun o => o.isNone) (some e :: rest)).length =
          (List.filter (fun o => o.isNone) rest).length := by simp
      have hg : (List.filter (fun o => o.isSome) (some e :: rest)).length =
          (List.filter (fun o => o.isSome) rest).length + 1 := by simp
      rw [hstep, ih, hf, hg, Prod.mk.injEq]
      omega

theorem filter_none_some_length (outcomes : List (Option String)) :
    (outcomes.filter (fun o => o.isNone)).length +
      (outcomes.filter (fun o => o.isSome)).length = outcomes.length := by
  induction outcomes with
  | nil => simp
  | cons o rest ih => cases o <;> simp [ih] <;> omega

/-- C4: the batch loop of `main` processes every input — the success
and error counters partition the batch — an exception on one input
only increments the error count, the final tally is the pair of these
counts, and the process exit status is non-zero exactly when at least
one input failed. -/
theorem main_batch_spec (outcomes : List (Option String)) :
    (mainTally outcomes).1 = (outcomes.filter (fun o => o.isNone)).length ∧
    (mainTally outcomes).2 = (outcomes.filter (fun o => o.isSome)).length ∧
    (mainTally outcomes).1 + (mainTally outcomes).2 = outcomes.length ∧
    (mainExitCode outcomes ≠ 0 ↔ ∃ o ∈ outcomes, o.isSome = true) := by
  have h := batchLoop_eq outcomes 0 0
  have h1 : (mainTally outcomes).1 =
      (outcomes.filter (fun o => o.isNone)).length := by
    rw [mainTally, h]
    simp
  have h2 : (mainTally outcomes).2 =
      (outcomes.filter (fun o => o.isSome)).length := by
    rw [mainTally, h]
    simp
  refine ⟨h1, h2, ?_, ?_⟩
  · rw [h1, h2]
    exact filter_none_some_length outcomes
  · have key : mainExitCode outcomes ≠ 0 ↔
        0 < (outcomes.filter (fun o => o.isSome)).length := by
      rw [mainExitCode, h2]
      split_ifs with hpos <;> simp [hpos]
    rw [key, List.length_pos, Ne, List.filter_eq_nil_iff]
    push_neg
    simp

/- ### Background parsing (C6) -/

/-- C6 evaluation: the hex triplet `#ff0000` denotes red and PIL would
parse it, but `main`'s background computation silently yields white
for it (the dummy expression raises before PIL parsing is reached);
colour names and unparseable strings behave as claimed. -/
theorem bg_hex_falls_back_to_white :
    mainBgColor hexRedArg = (255, 255, 255) ∧
    parseHexColor hexRedArg = some (255, 0, 0) ∧
    mainBgColor hexRedArg ≠ (255, 0, 0) ∧
    mainBgColor whiteArg = (255, 255, 255) ∧
    mainBgColor junkArg = (255, 255, 255) := by
  refine ⟨by decide, by decide, by decide, by decide, by decide⟩

/- ### Invalid resize mode (C7) -/

theorem resize_bad_mode (iw ih tw th : ℕ) (mode : String) (bg : RGB)
    (h1 : mode ≠ fitMode) (h2 : mode ≠ fillMode) :
    resize_with_mode iw ih tw th mode bg = Except.error modeErrMsg := by
  unfold resize_with_mode
  rw [if_pos ⟨h1, h2⟩]

/-- C7 counterexample: with mode string `stretch`,
`convert_to_waveshare_bmp` does raise the `ValueError`, but only after
the input image's pixel buffer has been decoded — the trace of
pixel-touching operations before the failure is not empty, so the
failure does not happen before any pixel work. -/
theorem convert_bad_mode_counterexample :
    Step.decodePixels ∈
      (convertTrace ⟨800, 480, stretchMode, 0, true, 1, 1, 1, "RGB"⟩
        1000 600).1 ∧
    (convertTrace ⟨800, 480, stretchMode, 0, true, 1, 1, 1, "RGB"⟩
        1000 600).2 = some modeErrMsg := by
  refine ⟨by decide, by decide⟩

/-- C7 (amended): an invalid mode makes `convert_to_waveshare_bmp`
fail with the `ValueError` of `resize_with_mode`; no resize,
enhancement, quantization or save is performed, but the decode (and
any requested rotation) of the input's pixels has already happened. -/
theorem convert_bad_mode_spec (a : ConvertArgs) (iw ih : ℕ)
    (h1 : a.mode ≠ fitMode) (h2 : a.mode ≠ fillMode) :
    BadModeSpecHolds a iw ih := by
  have herr : convertResize a iw ih = Except.error modeErrMsg :=
    resize_bad_mode iw ih a.width a.height a.mode (255, 255, 255) h1 h2
  unfold BadModeSpecHolds convertTrace
  rw [herr]
  by_cases hr : a.rotateDeg ≠ 0 <;> simp [hr]

/-- Witness for the amended C7 with mode `stretch` and a rotation. -/
theorem convert_bad_mode_spec_witness :
    BadModeSpecHolds ⟨800, 480, stretchMode, 90, true, 1, 1, 1, "RGB"⟩
      640 480 :=
  convert_bad_mode_spec ⟨800, 480, stretchMode, 90, true, 1, 1, 1, "RGB"⟩
    640 480 (by decide) (by decide)

/- ### The programmatic API's background (C10) -/

theorem resize_bg_eq (iw ih tw th : ℕ) (mode : String) (bg : RGB) (g : Geom)
    (h : resize_with_mode iw ih tw th mode bg = Except.ok g) : g.bg = bg := by
  simp only [resize_with_mode] at h
  split_ifs at h <;>
    simp only [reduceCtorEq, Except.ok.injEq] at h <;>
    (subst h; rfl)

/-- C10: `convert_to_waveshare_bmp` calls `resize_with_mode` without a
background argument, so every successful resize it performs uses the
white default: the canvas background recorded in the geometry is
white, and in `fit` mode every canvas pixel outside the pasted
rectangle — the letterbox margin — is white, regardless of caller
configuration (including the web server's `process_image`). -/
theorem convert_resize_margins_white (a : ConvertArgs) (iw ih : ℕ) (g : Geom)
    (h : convertResize a iw ih = Except.ok g) : MarginsWhite g := by
  have hbg : g.bg = (255, 255, 255) :=
    resize_bg_eq iw ih a.width a.height a.mode (255, 255, 255) g h
  refine ⟨hbg, fun scaled x y hout => ?_⟩
  unfold geomPixel
  rw [if_neg hout, hbg]

/-- Witness for C10: the web server's `process_image` configuration on
a 600×600 upload resizes successfully and letterboxes with white
margins. -/
theorem convert_resize_margins_white_witness :
    ∃ g, convertResize process_image_args 600 600 = Except.ok g ∧
      MarginsWhite g := by
  have hok : convertResize process_image_args 600 600 =
      Except.ok ⟨800, 480, pyRound ((480 : ℚ) * (((600 : ℕ) : ℚ) / ((600 : ℕ) : ℚ))),
        (480 : ℤ),
        ((800 : ℤ) - pyRound ((480 : ℚ) * (((600 : ℕ) : ℚ) / ((600 : ℕ) : ℚ)))).fdiv 2,
        ((480 : ℤ) - (480 : ℤ)).fdiv 2, (255, 255, 255)⟩ := by
    show resize_with_mode 600 600 800 480 fitMode (255, 255, 255) = _
    rw [resize_fit_eval 600 600 800 480 (255, 255, 255), if_neg (by norm_num)]
    norm_cast
  exact ⟨_, hok,
    convert_resize_margins_white process_image_args 600 600 _ hok⟩

/- ### The indexed bitmap encoding (C8) -/

theorem flatMap_const_length {β : Type} (f : β → List ℕ) (s : ℕ) :
    ∀ L : List β, (∀ x ∈ L, (f x).length = s) →
      (L.flatMap f).length = L.length * s := by
  intro L
  induction L with
  | nil => intro _; simp
  | cons x xs ih =>
    intro hs
    simp only [List.flatMap_cons, List.length_append, List.length_cons]
    rw [hs x (by simp), ih (fun y hy => hs y (by simp [hy]))]
    ring

theorem flatMap_getD {β : Type} (f : β → List ℕ) (s : ℕ) (d : β) :
    ∀ L : List β, (∀ x ∈ L, (f x).length = s) →
      ∀ k c : ℕ, k < L.length → c < s →
      (L.flatMap f).getD (k * s + c) 0 = (f (L.getD k d)).getD c 0 := by
  intro L
  induction L with
  | nil =>
    intro _ k c hk _
    simp at hk
  | cons x xs ih =>
    intro hs k c hk hc
    have hx : (f x).length = s := hs x (by simp)
    cases k with
    | zero =>
      simp only [Nat.zero_mul, Nat.zero_add, List.getD_cons_zero]
      show ((f x) ++ xs.flatMap f).getD c 0 = (f x).getD c 0
      exact List.getD_append _ _ 0 c (by omega)
    | succ k =>
      have hidx : (k + 1) * s + c = (f x).length + (k * s + c) := by
        rw [hx]
        ring
      rw [hidx, List.getD_cons_succ]
      show ((f x) ++ xs.flatMap f).getD ((f x).length + (k * s + c)) 0 = _
      rw [List.getD_append_right _ _ 0 _ (by omega)]
      rw [show (f x).length + (k * s + c) - (f x).length = k * s + c from by omega]
      exact ih (fun y hy => hs y (by simp [hy])) k c (by simpa using hk) hc

theorem palette256_length : palette256.length = 256 := rfl

theorem bmpHeaders_length (w h : ℕ) : (bmpHeaders w h).length = 54 := by
  simp [bmpHeaders, le16, le32]

theorem bmpColorTable_length : bmpColorTable.length = 1024 := by
  unfold bmpColorTable
  rw [flatMap_const_length (fun c : RGB => [c.2.2, c.2.1, c.1, 0]) 4 palette256
    (fun x _ => rfl), palette256_length]

theorem readColorTableEntry_encode (w h : ℕ) (rows : List (List ℕ)) (i : ℕ)
    (hi : i < 256) :
    readColorTableEntry (encodeBMP8 w h rows) i =
      palette256.getD i ((0, 0, 0) : RGB) := by
  have hbytes : ∀ t, t < 4 →
      (encodeBMP8 w h rows).getD (54 + (4 * i + t)) 0 =
        ((fun c : RGB => [c.2.2, c.2.1, c.1, 0])
          (palette256.getD i ((0, 0, 0) : RGB))).getD t 0 := by
    intro t ht
    unfold encodeBMP8
    rw [List.getD_append_right _ _ 0 _ (by rw [bmpHeaders_length w h]; omega),
      bmpHeaders_length w h,
      show 54 + (4 * i + t) - 54 = 4 * i + t from by omega,
      List.getD_append _ _ 0 _ (by rw [bmpColorTable_length]; omega),
      show 4 * i + t = i * 4 + t from by ring]
    unfold bmpColorTable
    exact flatMap_getD (fun c : RGB => [c.2.2, c.2.1, c.1, 0]) 4
      ((0, 0, 0) : RGB) palette256 (fun x _ => rfl) i t
      (by rw [palette256_length]; omega) ht
  unfold readColorTableEntry
  rw [show 54 + 4 * i + 2 = 54 + (4 * i + 2) from by omega, hbytes 2 (by omega),
    show 54 + 4 * i + 1 = 54 + (4 * i + 1) from by omega, hbytes 1 (by omega),
    show 54 + 4 * i = 54 + (4 * i + 0) from by omega, hbytes 0 (by omega)]
  rfl

theorem readColorTable_encode (w h : ℕ) (rows : List (List ℕ)) :
    readColorTable (encodeBMP8 w h rows) = palette256 := by
  apply List.ext_getElem
  · rw [palette256_length]
    simp [readColorTable]
  · intro i h1 h2
    simp only [readColorTable, List.getElem_map, List.getElem_range]
    rw [readColorTableEntry_encode w h rows i (by rwa [palette256_length] at h2)]
    exact List.getD_eq_getElem palette256 ((0, 0, 0) : RGB) h2

theorem replicate_getD_zero (n m : ℕ) :
    (List.replicate n (0 : ℕ)).getD m 0 = 0 := by
  induction n generalizing m with
  | zero => simp
  | succ n ih => cases m <;> simp [List.replicate_succ, ih]

theorem bmpStride8_ge (w : ℕ) : w ≤ bmpStride8 w := by
  unfold bmpStride8
  omega

theorem bmpPixelArray8_length (w : ℕ) (rows : List (List ℕ))
    (hw : ∀ row ∈ rows, row.length = w) :
    (bmpPixelArray8 w rows).length = rows.length * bmpStride8 w := by
  unfold bmpPixelArray8
  rw [flatMap_const_length _ (bmpStride8 w) rows.reverse ?_, List.length_reverse]
  intro x hx
  rw [List.length_append, hw x (List.mem_reverse.mp hx), List.length_replicate]
  have := bmpStride8_ge w
  omega

theorem bmpPixelArray8_getD (w : ℕ) (rows : List (List ℕ))
    (hw : ∀ row ∈ rows, row.length = w) (k c : ℕ)
    (hk : k < rows.length) (hc : c < bmpStride8 w) :
    (bmpPixelArray8 w rows).getD (k * bmpStride8 w + c) 0 =
      ((rows.getD (rows.length - 1 - k) []) ++
        List.replicate (bmpStride8 w - w) 0).getD c 0 := by
  unfold bmpPixelArray8
  rw [flatMap_getD _ (bmpStride8 w) ([] : List ℕ) rows.reverse ?_ k c
    (by rwa [List.length_reverse]) hc]
  · have hrev : rows.reverse.getD k [] = rows.getD (rows.length - 1 - k) [] := by
      rw [List.getD_eq_getElem _ _ (by rwa [List.length_reverse]),
        List.getD_eq_getElem _ _ (by omega)]
      simp [List.getElem_reverse]
    rw [hrev]
  · intro x hx
    rw [List.length_append, hw x (List.mem_reverse.mp hx), List.length_replicate]
    have := bmpStride8_ge w
    omega

/-- C8: the indexed bitmap encoding of a quantized `w × h` image has a
colour table that re-reads as exactly the 7 palette colours in
declared order at indices 0-6 with the remaining 249 entries
zero-filled, stores one palette-index byte per pixel in bottom-to-top
row order, and pads each row with zero bytes to a multiple of 4. -/
theorem save_bmp_p_spec (w h : ℕ) (rows : List (List ℕ))
    (hh : rows.length = h) (hw : ∀ row ∈ rows, row.length = w) :
    Bmp8SpecHolds w h rows := by
  refine ⟨?_, ?_, bmpStride8_ge w, ?_, ?_, ?_⟩
  · rw [readColorTable_encode w h rows]
    rfl
  · unfold bmpStride8
    omega
  · rw [bmpPixelArray8_length w rows hw, hh]
  · intro r c hr hc
    have hlt : h - 1 - r < rows.length := by omega
    rw [bmpPixelArray8_getD w rows hw (h - 1 - r) c (by omega)
      (by have := bmpStride8_ge w; omega)]
    rw [show rows.length - 1 - (h - 1 - r) = r from by omega]
    have hmem : rows.getD r [] ∈ rows := by
      rw [List.getD_eq_getElem rows [] (by omega)]
      exact List.getElem_mem _
    rw [List.getD_append _ _ 0 c (by rw [hw _ hmem]; omega)]
  · intro r c hr hcw hcs
    rw [bmpPixelArray8_getD w rows hw (h - 1 - r) c (by omega) hcs]
    rw [show rows.length - 1 - (h - 1 - r) = r from by omega]
    have hmem : rows.getD r [] ∈ rows := by
      rw [List.getD_eq_getElem rows [] (by omega)]
      exact List.getElem_mem _
    rw [List.getD_append_right _ _ 0 c (by rw [hw _ hmem]; omega), hw _ hmem]
    exact replicate_getD_zero _ _

/-- Witness for C8 on a concrete 2×1 indexed image. -/
theorem save_bmp_p_spec_witness : Bmp8SpecHolds 2 1 [[1, 0]] :=
  save_bmp_p_spec 2 1 [[1, 0]] (by decide) (by decide)

end PicServer
